import Mathlib

/-!
Verification of the fungible-token contract in `src/lib.rs`.

The contract stores a `FungibleToken` ledger and a metadata record.  The
public token operations (`ft_transfer`, `ft_transfer_call` resolution,
`storage_deposit`, `storage_withdraw`, `storage_unregister`,
`storage_balance_bounds`) are generated by the
`impl_fungible_token_core!` / `impl_fungible_token_storage!` invocations
at `src/lib.rs:97-98`; the bodies of those generated functions are not
part of this repository, so they are modelled from the specification.
`Contract::new` (src/lib.rs:61-75) and `Contract::update_image`
(src/lib.rs:77-86) are translated directly from the source.

Machine integers: balances are `u128` in the source; they are modelled as
`Nat` with an explicit `u128Limit` overflow check where the source checks
overflow.  Failure (a Rust panic, which rolls the whole call back on the
host) is modelled with `Except`: an `error` result leaves the caller with
the unchanged pre-state.
-/

/-- Account identifiers are opaque strings validated by the runtime. -/
abbrev AccountId := String

/-- `2 ^ 128`, the exclusive upper bound of a `u128` balance. -/
def u128Limit : Nat := 340282366920938463463374607431768211456

/-- The error taxonomy of the specification (section 7). -/
inductive FTError where
  | AccountNotRegistered
  | ReceiverNotRegistered
  | InsufficientBalance
  | InsufficientDeposit
  | InsufficientAvailableStorage
  | NonZeroBalance
  | SenderEqualsReceiver
  | ZeroAmount
  | Overflow
  | Unauthorized
  | NotInitialized
deriving DecidableEq, Repr

namespace AList

/-- First-occurrence lookup in an association list keyed by account ids. -/
def get {β : Type} (l : List (AccountId × β)) (a : AccountId) : Option β :=
  match l with
  | [] => none
  | (k, v) :: t => if k = a then some v else get t a

/-- Replace the binding of `a` (first occurrence), appending it if absent. -/
def set {β : Type} (l : List (AccountId × β)) (a : AccountId) (v : β) :
    List (AccountId × β) :=
  match l with
  | [] => [(a, v)]
  | (k, w) :: t => if k = a then (a, v) :: t else (k, w) :: set t a v

/-- Remove the binding of `a` (first occurrence). -/
def remove {β : Type} (l : List (AccountId × β)) (a : AccountId) :
    List (AccountId × β) :=
  match l with
  | [] => []
  | (k, w) :: t => if k = a then t else (k, w) :: remove t a

end AList

/-- A storage-registry record: the non-refundable `floor` paying for the
ledger entry and the refundable `available` remainder (spec section 4.2). -/
structure StorageBalance where
  floor : Nat
  available : Nat
deriving DecidableEq, Repr

/-- The pair returned by `storage_balance_bounds`; `max = none` means
unbounded. -/
structure StorageBalanceBounds where
  min : Nat
  max : Option Nat
deriving DecidableEq, Repr

/-- The token state held in the `token: FungibleToken` field of the
contract (src/lib.rs:32): the balance ledger, the storage registry, the
recorded total supply, the measured byte size of one ledger entry, and the
log of burn events emitted through `on_tokens_burned` (src/lib.rs:92-94). -/
structure FungibleToken where
  accounts : List (AccountId × Nat)
  registry : List (AccountId × StorageBalance)
  total_supply : Nat
  account_storage_usage : Nat
  burn_log : List (AccountId × Nat)
deriving Repr

/-- `FungibleToken::new` (called at src/lib.rs:69): empty ledger and
registry, zero supply. -/
def FungibleToken.new (storage_usage : Nat) : FungibleToken :=
  { accounts := []
    registry := []
    total_supply := 0
    account_storage_usage := storage_usage
    burn_log := [] }

/-- `ft_balance_of`: 0 for unregistered accounts, else the ledger balance. -/
def balance_of (t : FungibleToken) (a : AccountId) : Nat :=
  (AList.get t.accounts a).getD 0

/-- Modelled from the spec: `internal_register_account`, generated by the
macros at src/lib.rs:97-98 and called at src/lib.rs:72; spec section 4.1
`register`: creates a zero-balance entry if absent, idempotent. -/
def internal_register_account (t : FungibleToken) (a : AccountId) :
    FungibleToken :=
  if (AList.get t.accounts a).isSome then t
  else { t with accounts := AList.set t.accounts a 0 }

/-- Modelled from the spec: `internal_deposit` of the generated token core
(src/lib.rs:97); spec section 4.1 `deposit`: requires the account
registered, adds the amount, fails with `Overflow` past the u128 ceiling. -/
def internal_deposit (t : FungibleToken) (a : AccountId) (amount : Nat) :
    Except FTError FungibleToken :=
  match AList.get t.accounts a with
  | none => .error .AccountNotRegistered
  | some b =>
    if b + amount < u128Limit then
      .ok { t with accounts := AList.set t.accounts a (b + amount) }
    else .error .Overflow

/-- Modelled from the spec: `internal_withdraw` of the generated token core
(src/lib.rs:97); spec section 4.1 `withdraw`: requires the account
registered with balance at least the amount, else `InsufficientBalance`. -/
def internal_withdraw (t : FungibleToken) (a : AccountId) (amount : Nat) :
    Except FTError FungibleToken :=
  match AList.get t.accounts a with
  | none => .error .InsufficientBalance
  | some b =>
    if amount ≤ b then
      .ok { t with accounts := AList.set t.accounts a (b - amount) }
    else .error .InsufficientBalance

/-- Modelled from the spec: `ft_transfer` (and the committed first phase of
`ft_transfer_call`) of the generated token core (src/lib.rs:97); spec
section 4.3: checks sender, receiver, amount then moves the funds
atomically. -/
def ft_transfer (t : FungibleToken) (sender receiver : AccountId)
    (amount : Nat) : Except FTError FungibleToken :=
  if sender = receiver then .error .SenderEqualsReceiver
  else if amount = 0 then .error .ZeroAmount
  else if (AList.get t.accounts receiver).isNone then
    .error .ReceiverNotRegistered
  else
    match internal_withdraw t sender amount with
    | .error e => .error e
    | .ok t1 => internal_deposit t1 receiver amount

/-- The amount the receiver declines to keep, as interpreted from the
notification's resolution: a failed resolution declines the full amount, a
returned value is clamped to `[0, amount]` (spec section 4.3 step 3). -/
def declaredUnused (amount : Nat) (result : Option Nat) : Nat :=
  match result with
  | none => amount
  | some v => min v amount

/-- The refund actually moved back to the sender: the declared unused
amount further clamped to the receiver's current balance (spec section 4.3
step 4). -/
def refundOf (t : FungibleToken) (receiver : AccountId) (amount : Nat)
    (result : Option Nat) : Nat :=
  min (balance_of t receiver) (declaredUnused amount result)

/-- Modelled from the spec: `ft_resolve_transfer` of the generated token
core (src/lib.rs:97); spec section 4.3 steps 3-6.  `result` is the
notification's outcome (`none` when it failed).  Returns the new state and
the net amount kept by the receiver.  If the sender's account no longer
exists the refund is burned and logged (`on_tokens_burned`,
src/lib.rs:92-94).  The refund deposit cannot overflow on any state
satisfying the supply invariant, so it is written as plain addition. -/
def ft_resolve_transfer (t : FungibleToken) (sender receiver : AccountId)
    (amount : Nat) (result : Option Nat) : FungibleToken × Nat :=
  let unused := declaredUnused amount result
  let rb := balance_of t receiver
  let refund := min rb unused
  if refund = 0 then (t, amount)
  else
    let t1 := { t with accounts := AList.set t.accounts receiver (rb - refund) }
    match AList.get t1.accounts sender with
    | some sb =>
      ({ t1 with accounts := AList.set t1.accounts sender (sb + refund) },
       amount - refund)
    | none =>
      ({ t1 with
          total_supply := t1.total_supply - refund
          burn_log := t1.burn_log ++ [(sender, refund)] },
       amount - refund)

/-- The storage cost of one ledger entry at the runtime's current
per-byte storage price. -/
def ledger_entry_cost (t : FungibleToken) (storage_byte_cost : Nat) : Nat :=
  t.account_storage_usage * storage_byte_cost

/-- Modelled from the spec: `storage_balance_bounds` of the generated
storage management (src/lib.rs:98); spec section 4.2: `min` is the exact
cost of one ledger entry at call time, `max` is unbounded. -/
def storage_balance_bounds (t : FungibleToken) (storage_byte_cost : Nat) :
    StorageBalanceBounds :=
  { min := ledger_entry_cost t storage_byte_cost, max := none }

/-- Modelled from the spec: `storage_deposit` of the generated storage
management (src/lib.rs:98); spec section 4.2.  Returns the new state and
the amount refunded to the caller.  An already-registered account gets the
full attached amount back with no state change; a first-time registration
requires `attached ≥ min`, creates a zero-balance ledger entry and the
registry record, every attached unit being recorded as floor or available. -/
def storage_deposit (t : FungibleToken) (caller : AccountId)
    (account_arg : Option AccountId) (attached : Nat)
    (registration_only : Bool) (storage_byte_cost : Nat) :
    Except FTError (FungibleToken × Nat) :=
  let account := account_arg.getD caller
  if (AList.get t.accounts account).isSome then .ok (t, attached)
  else
    let m := (storage_balance_bounds t storage_byte_cost).min
    if attached < m then .error .InsufficientDeposit
    else
      let sb : StorageBalance :=
        if registration_only then ⟨attached, 0⟩ else ⟨m, attached - m⟩
      .ok ({ t with
              accounts := AList.set t.accounts account 0
              registry := AList.set t.registry account sb }, 0)

/-- Modelled from the spec: `storage_withdraw` of the generated storage
management (src/lib.rs:98); spec section 4.2: moves up to `amount`
(default: all of `available`) out of the refundable portion. -/
def storage_withdraw (t : FungibleToken) (caller : AccountId)
    (amount_arg : Option Nat) : Except FTError (FungibleToken × Nat) :=
  match AList.get t.registry caller with
  | none => .error .AccountNotRegistered
  | some sb =>
    let amt := amount_arg.getD sb.available
    if amt ≤ sb.available then
      .ok ({ t with
              registry := AList.set t.registry caller ⟨sb.floor, sb.available - amt⟩ },
           amt)
    else .error .InsufficientAvailableStorage

/-- Modelled from the spec: `storage_unregister` of the generated storage
management (src/lib.rs:98); spec section 4.2.  Returns the new state, the
storage refund sent to the caller, and whether unregistration occurred.  A
nonzero balance without `force` fails; with `force` the balance is burned
and logged (`on_account_closed`/`on_tokens_burned`, src/lib.rs:88-94) and
the account leaves both the ledger and the registry. -/
def storage_unregister (t : FungibleToken) (caller : AccountId)
    (force : Bool) : Except FTError (FungibleToken × Nat × Bool) :=
  match AList.get t.accounts caller with
  | none => .ok (t, 0, false)
  | some b =>
    if b = 0 ∨ force then
      let refund :=
        match AList.get t.registry caller with
        | some sb => sb.floor + sb.available
        | none => 0
      .ok ({ t with
              accounts := AList.remove t.accounts caller
              registry := AList.remove t.registry caller
              total_supply := t.total_supply - b
              burn_log :=
                if b = 0 then t.burn_log else t.burn_log ++ [(caller, b)] },
           refund, true)
    else .error .NonZeroBalance

/-- The metadata record (`FungibleTokenMetadata`), src/lib.rs:46-54. -/
structure FungibleTokenMetadata where
  spec : String
  name : String
  symbol : String
  icon : Option String
  reference : Option String
  reference_hash : Option String
  decimals : Nat
deriving DecidableEq, Repr

/-- The contract state, src/lib.rs:31-34.  The lazily loaded metadata is
an `Option`, `none` standing for an uninitialized slot. -/
structure Contract where
  token : FungibleToken
  metadata : Option FungibleTokenMetadata
deriving Repr

/-- `Contract::new` (src/lib.rs:61-75): registers the owner, then the
initial minting deposit credits the full supply to the owner and fixes the
recorded total supply. -/
def Contract.new (owner_id : AccountId) (total_supply : Nat)
    (metadata : FungibleTokenMetadata) (storage_usage : Nat) : Contract :=
  let t0 := internal_register_account (FungibleToken.new storage_usage) owner_id
  let t1 := { t0 with
    accounts := AList.set t0.accounts owner_id (balance_of t0 owner_id + total_supply)
    total_supply := t0.total_supply + total_supply }
  { token := t1, metadata := some metadata }

/-- `Contract::update_image` (src/lib.rs:77-86): only the fixed
administrative account `avtoken.near` may replace the metadata icon. -/
def Contract.update_image (c : Contract) (predecessor : AccountId)
    (image : String) : Except FTError Contract :=
  if predecessor = "avtoken.near" then
    match c.metadata with
    | some m => .ok { c with metadata := some { m with icon := some image } }
    | none => .error .NotInitialized
  else .error .Unauthorized

/-- One observable operation on the token state; `transfer` covers both
`ft_transfer` and the committed first phase of `ft_transfer_call`,
`resolveTransfer` the later asynchronous resolution. -/
inductive Op where
  | transfer (sender receiver : AccountId) (amount : Nat)
  | resolveTransfer (sender receiver : AccountId) (amount : Nat)
      (result : Option Nat)
  | storageDeposit (caller : AccountId) (account_arg : Option AccountId)
      (attached : Nat) (registration_only : Bool) (storage_byte_cost : Nat)
  | storageWithdraw (caller : AccountId) (amount_arg : Option Nat)
  | storageUnregister (caller : AccountId) (force : Bool)

/-- Apply one operation; a failing operation rolls back to the pre-state,
as a panic does on the host. -/
def step (t : FungibleToken) (op : Op) : FungibleToken :=
  match op with
  | .transfer s r a =>
    match ft_transfer t s r a with
    | .ok t' => t'
    | .error _ => t
  | .resolveTransfer s r a res => (ft_resolve_transfer t s r a res).1
  | .storageDeposit c acc att ro bc =>
    match storage_deposit t c acc att ro bc with
    | .ok (t', _) => t'
    | .error _ => t
  | .storageWithdraw c a =>
    match storage_withdraw t c a with
    | .ok (t', _) => t'
    | .error _ => t
  | .storageUnregister c f =>
    match storage_unregister t c f with
    | .ok (t', _, _) => t'
    | .error _ => t

/-- Run a sequence of operations. -/
def run (t : FungibleToken) (ops : List Op) : FungibleToken :=
  ops.foldl step t

/-- The sum of all ledger balances. -/
def sumBalances (t : FungibleToken) : Nat :=
  (t.accounts.map Prod.snd).sum

/-- The total amount ever burned, as recorded in the burn log. -/
def burnedTotal (t : FungibleToken) : Nat :=
  (t.burn_log.map Prod.snd).sum

/-- A small concrete state used to evaluate the theorems: two registered
accounts whose balances sum to the recorded total supply. -/
def sampleToken : FungibleToken :=
  { accounts := [("alice", 5), ("bob", 2)]
    registry := [("alice", ⟨3, 1⟩), ("bob", ⟨3, 0⟩)]
    total_supply := 7
    account_storage_usage := 4
    burn_log := [] }

/-- The state of scenario B of the spec right after the committed first
phase of a transfer-and-call of 300 from `x` to `r` on a supply of 1000. -/
def scenarioBState : FungibleToken :=
  { accounts := [("x", 700), ("r", 300)]
    registry := []
    total_supply := 1000
    account_storage_usage := 4
    burn_log := [] }

/-- A concrete metadata record used to evaluate the metadata theorems. -/
def sampleMetadata : FungibleTokenMetadata :=
  { spec := "ft-1.0.0"
    name := "AV TOKEN"
    symbol := "ASTRO"
    icon := some "icon1"
    reference := none
    reference_hash := none
    decimals := 18 }

/-- A concrete contract state used to evaluate the metadata theorems. -/
def sampleContract : Contract :=
  { token := sampleToken, metadata := some sampleMetadata }

namespace AList

theorem get_set_self {β : Type} (l : List (AccountId × β)) (a : AccountId)
    (v : β) : get (set l a v) a = some v := by
  induction l with
  | nil => simp [get, set]
  | cons hd tl ih =>
    obtain ⟨k, w⟩ := hd
    by_cases h : k = a <;> simp [get, set, h, ih]

theorem get_set_ne {β : Type} (l : List (AccountId × β)) (a b : AccountId)
    (v : β) (hne : b ≠ a) : get (set l a v) b = get l b := by
  have hab : a ≠ b := fun h => hne h.symm
  induction l with
  | nil => simp [get, set, hab]
  | cons hd tl ih =>
    obtain ⟨k, w⟩ := hd
    by_cases h : k = a
    · subst h
      simp [get, set, hab]
    · simp [get, set, h, ih]

theorem get_remove_ne {β : Type} (l : List (AccountId × β)) (a b : AccountId)
    (hne : b ≠ a) : get (remove l a) b = get l b := by
  have hab : a ≠ b := fun h => hne h.symm
  induction l with
  | nil => simp [remove]
  | cons hd tl ih =>
    obtain ⟨k, w⟩ := hd
    by_cases h : k = a
    · subst h
      simp [get, remove, hab]
    · simp [get, remove, h, ih]

theorem mem_keys_of_get {β : Type} (l : List (AccountId × β))
    (a : AccountId) (v : β) (h : get l a = some v) : a ∈ l.map Prod.fst := by
  induction l with
  | nil => simp [get] at h
  | cons hd tl ih =>
    obtain ⟨k, w⟩ := hd
    by_cases hk : k = a
    · simp [hk]
    · simp only [get, if_neg hk] at h
      simp [ih h]

theorem get_remove_self {β : Type} (l : List (AccountId × β)) (a : AccountId)
    (hnd : (l.map Prod.fst).Nodup) : get (remove l a) a = none := by
  induction l with
  | nil => simp [get, remove]
  | cons hd tl ih =>
    obtain ⟨k, w⟩ := hd
    simp only [List.map_cons, List.nodup_cons] at hnd
    by_cases h : k = a
    · subst h
      simp only [remove, if_pos rfl]
      cases hget : get tl k with
      | none => exact hget
      | some v => exact absurd (mem_keys_of_get tl k v hget) hnd.1
    · simp [get, remove, h, ih hnd.2]

theorem sum_set (l : List (AccountId × Nat)) (a : AccountId) (v : Nat) :
    ((set l a v).map Prod.snd).sum + (get l a).getD 0
      = (l.map Prod.snd).sum + v := by
  induction l with
  | nil => simp [get, set]
  | cons hd tl ih =>
    obtain ⟨k, w⟩ := hd
    by_cases h : k = a <;> simp [get, set, h] <;> omega

theorem sum_remove (l : List (AccountId × Nat)) (a : AccountId) :
    ((remove l a).map Prod.snd).sum + (get l a).getD 0
      = (l.map Prod.snd).sum := by
  induction l with
  | nil => simp [get, remove]
  | cons hd tl ih =>
    obtain ⟨k, w⟩ := hd
    by_cases h : k = a <;> simp [get, remove, h] <;> omega

theorem get_le_sum (l : List (AccountId × Nat)) (a : AccountId) (b : Nat)
    (h : get l a = some b) : b ≤ (l.map Prod.snd).sum := by
  induction l with
  | nil => simp [get] at h
  | cons hd tl ih =>
    obtain ⟨k, w⟩ := hd
    by_cases hk : k = a
    · simp only [get, if_pos hk, Option.some.injEq] at h
      simp [← h]
    · simp only [get, if_neg hk] at h
      have := ih h
      simp
      omega

theorem keys_set_eq {β : Type} (l : List (AccountId × β)) (a : AccountId)
    (v : β) :
    (set l a v).map Prod.fst = l.map Prod.fst ∨
      (set l a v).map Prod.fst = l.map Prod.fst ++ [a] := by
  induction l with
  | nil => simp [set]
  | cons hd tl ih =>
    obtain ⟨k, w⟩ := hd
    by_cases hk : k = a
    · subst hk
      simp [set]
    · simp only [set, if_neg hk, List.map_cons]
      rcases ih with h | h
      · exact Or.inl (by rw [h])
      · exact Or.inr (by rw [h]; rfl)

theorem nodup_keys_set {β : Type} (l : List (AccountId × β)) (a : AccountId)
    (v : β) (hnd : (l.map Prod.fst).Nodup) :
    ((set l a v).map Prod.fst).Nodup := by
  induction l with
  | nil => simp [set]
  | cons hd tl ih =>
    obtain ⟨k, w⟩ := hd
    simp only [List.map_cons, List.nodup_cons] at hnd
    by_cases hk : k = a
    · subst hk
      have hs : set ((k, w) :: tl) k v = (k, v) :: tl := by simp [set]
      rw [hs, List.map_cons, List.nodup_cons]
      exact And.intro hnd.1 hnd.2
    · simp only [set, if_neg hk, List.map_cons, List.nodup_cons]
      refine And.intro (fun hmem => ?_) (ih hnd.2)
      rcases keys_set_eq tl a v with h | h
      · rw [h] at hmem
        exact hnd.1 hmem
      · rw [h, List.mem_append] at hmem
        rcases hmem with hmem | hmem
        · exact hnd.1 hmem
        · exact hk (by simpa using hmem)

theorem remove_sublist {β : Type} (l : List (AccountId × β)) (a : AccountId) :
    List.Sublist (remove l a) l := by
  induction l with
  | nil => simp [remove]
  | cons hd tl ih =>
    obtain ⟨k, w⟩ := hd
    by_cases h : k = a
    · simp only [remove, if_pos h]
      exact List.sublist_cons_self _ _
    · simp only [remove, if_neg h]
      exact ih.cons₂ _

theorem nodup_keys_remove {β : Type} (l : List (AccountId × β))
    (a : AccountId) (hnd : (l.map Prod.fst).Nodup) :
    ((remove l a).map Prod.fst).Nodup :=
  List.Nodup.sublist (List.Sublist.map Prod.fst (remove_sublist l a)) hnd

end AList

/-- The states reachable from an initial supply: balances sum to the
recorded total supply, supply is only lost to logged burns, and ledger
keys are distinct. -/
def GInv (supply : Nat) (t : FungibleToken) : Prop :=
  sumBalances t = t.total_supply ∧
  t.total_supply + burnedTotal t = supply ∧
  (t.accounts.map Prod.fst).Nodup

theorem internal_withdraw_ok_sum (t t' : FungibleToken) (a : AccountId)
    (amt : Nat) (h : internal_withdraw t a amt = .ok t') :
    sumBalances t' + amt = sumBalances t ∧
    t'.total_supply = t.total_supply ∧ t'.burn_log = t.burn_log ∧
    t'.registry = t.registry ∧ t'.account_storage_usage = t.account_storage_usage ∧
    ((t.accounts.map Prod.fst).Nodup → (t'.accounts.map Prod.fst).Nodup) := by
  unfold internal_withdraw at h
  split at h
  · exact absurd h (by simp)
  · rename_i b hget
    split at h
    · rename_i hle
      injection h with h
      subst h
      have hsum := AList.sum_set t.accounts a (b - amt)
      rw [hget] at hsum
      have hb := AList.get_le_sum t.accounts a b hget
      refine ⟨?_, rfl, rfl, rfl, rfl, fun hnd => AList.nodup_keys_set _ _ _ hnd⟩
      simp only [sumBalances] at *
      simp only [Option.getD_some] at hsum
      omega
    · exact absurd h (by simp)

theorem internal_deposit_ok_sum (t t' : FungibleToken) (a : AccountId)
    (amt : Nat) (h : internal_deposit t a amt = .ok t') :
    sumBalances t' = sumBalances t + amt ∧
    t'.total_supply = t.total_supply ∧ t'.burn_log = t.burn_log ∧
    t'.registry = t.registry ∧ t'.account_storage_usage = t.account_storage_usage ∧
    ((t.accounts.map Prod.fst).Nodup → (t'.accounts.map Prod.fst).Nodup) := by
  unfold internal_deposit at h
  split at h
  · exact absurd h (by simp)
  · rename_i b hget
    split at h
    · rename_i hlt
      injection h with h
      subst h
      have hsum := AList.sum_set t.accounts a (b + amt)
      rw [hget] at hsum
      refine ⟨?_, rfl, rfl, rfl, rfl, fun hnd => AList.nodup_keys_set _ _ _ hnd⟩
      simp only [sumBalances] at *
      simp only [Option.getD_some] at hsum
      omega
    · exact absurd h (by simp)

theorem ft_transfer_ok_sum (t t' : FungibleToken) (s r : AccountId)
    (amt : Nat) (h : ft_transfer t s r amt = .ok t') :
    sumBalances t' = sumBalances t ∧
    t'.total_supply = t.total_supply ∧ t'.burn_log = t.burn_log ∧
    ((t.accounts.map Prod.fst).Nodup → (t'.accounts.map Prod.fst).Nodup) := by
  unfold ft_transfer at h
  by_cases hsr : s = r
  · rw [if_pos hsr] at h; exact absurd h (by simp)
  rw [if_neg hsr] at h
  by_cases h0 : amt = 0
  · rw [if_pos h0] at h; exact absurd h (by simp)
  rw [if_neg h0] at h
  by_cases hrr : (AList.get t.accounts r).isNone
  · rw [if_pos hrr] at h; exact absurd h (by simp)
  rw [if_neg hrr] at h
  split at h
  · exact absurd h (by simp)
  · rename_i t1 hw
    obtain ⟨h1, h2, h3, h4, h5, h6⟩ := internal_withdraw_ok_sum t t1 s amt hw
    obtain ⟨g1, g2, g3, g4, g5, g6⟩ := internal_deposit_ok_sum t1 t' r amt h
    exact ⟨by omega, by rw [g2, h2], by rw [g3, h3], fun hnd => g6 (h6 hnd)⟩

theorem ft_resolve_transfer_preserves (supply : Nat) (t : FungibleToken)
    (s r : AccountId) (amt : Nat) (result : Option Nat) (h : GInv supply t) :
    GInv supply (ft_resolve_transfer t s r amt result).1 := by
  obtain ⟨hsum, hburn, hnd⟩ := h
  simp only [ft_resolve_transfer]
  by_cases hz : min (balance_of t r) (declaredUnused amt result) = 0
  · simp only [if_pos hz]
    exact ⟨hsum, hburn, hnd⟩
  · simp only [if_neg hz]
    have hrbpos : 0 < balance_of t r := by omega
    have hrget : AList.get t.accounts r = some (balance_of t r) := by
      cases hg : AList.get t.accounts r with
      | none =>
        exfalso
        have hb0 : balance_of t r = 0 := by unfold balance_of; rw [hg]; rfl
        omega
      | some b =>
        have hb : balance_of t r = b := by unfold balance_of; rw [hg]; rfl
        rw [hb]
    have hrblt : min (balance_of t r) (declaredUnused amt result) ≤ balance_of t r :=
      min_le_left _ _
    have hsum1 := AList.sum_set t.accounts r
      (balance_of t r - min (balance_of t r) (declaredUnused amt result))
    rw [hrget] at hsum1
    simp only [Option.getD_some] at hsum1
    have hrb_le : balance_of t r ≤ sumBalances t :=
      AList.get_le_sum t.accounts r (balance_of t r) hrget
    split
    · rename_i sb hs
      have hsum2 := AList.sum_set
        (AList.set t.accounts r
          (balance_of t r - min (balance_of t r) (declaredUnused amt result))) s
        (sb + min (balance_of t r) (declaredUnused amt result))
      rw [hs] at hsum2
      simp only [Option.getD_some] at hsum2
      refine ⟨?_, ?_, ?_⟩
      · simp only [sumBalances] at *
        omega
      · exact hburn
      · exact AList.nodup_keys_set _ _ _ (AList.nodup_keys_set _ _ _ hnd)
    · rename_i hs
      refine ⟨?_, ?_, ?_⟩
      · simp only [sumBalances, burnedTotal] at *
        omega
      · simp only [sumBalances, burnedTotal, List.map_append, List.sum_append,
          List.map_cons, List.map_nil, List.sum_cons, List.sum_nil] at *
        omega
      · exact AList.nodup_keys_set _ _ _ hnd

theorem storage_deposit_preserves (supply : Nat) (t t' : FungibleToken)
    (c : AccountId) (acc : Option AccountId) (att : Nat) (ro : Bool)
    (bc : Nat) (refund : Nat)
    (hok : storage_deposit t c acc att ro bc = .ok (t', refund))
    (h : GInv supply t) : GInv supply t' := by
  obtain ⟨hsum, hburn, hnd⟩ := h
  simp only [storage_deposit] at hok
  split at hok
  · rename_i hreg
    injection hok with hok
    simp only [Prod.mk.injEq] at hok
    obtain ⟨h1, _⟩ := hok
    subst h1
    exact ⟨hsum, hburn, hnd⟩
  · rename_i hreg
    split at hok
    · exact absurd hok (by simp)
    · injection hok with hok
      simp only [Prod.mk.injEq] at hok
      obtain ⟨h1, _⟩ := hok
      subst h1
      have hget0 : AList.get t.accounts (acc.getD c) = none := by
        cases hg : AList.get t.accounts (acc.getD c) with
        | none => rfl
        | some b => rw [hg] at hreg; simp at hreg
      have hsum1 := AList.sum_set t.accounts (acc.getD c) 0
      rw [hget0] at hsum1
      simp only [Option.getD_none] at hsum1
      refine ⟨?_, hburn, AList.nodup_keys_set _ _ _ hnd⟩
      simp only [sumBalances] at *
      omega

theorem storage_unregister_preserves (supply : Nat) (t t' : FungibleToken)
    (c : AccountId) (force : Bool) (refund : Nat) (occurred : Bool)
    (hok : storage_unregister t c force = .ok (t', refund, occurred))
    (h : GInv supply t) : GInv supply t' := by
  obtain ⟨hsum, hburn, hnd⟩ := h
  unfold storage_unregister at hok
  split at hok
  · injection hok with hok
    simp only [Prod.mk.injEq] at hok
    obtain ⟨h1, _, _⟩ := hok
    subst h1
    exact ⟨hsum, hburn, hnd⟩
  · rename_i b hget
    split at hok
    · injection hok with hok
      simp only [Prod.mk.injEq] at hok
      obtain ⟨h1, _, _⟩ := hok
      subst h1
      have hsum1 := AList.sum_remove t.accounts c
      rw [hget] at hsum1
      simp only [Option.getD_some] at hsum1
      have hble : b ≤ sumBalances t := AList.get_le_sum t.accounts c b hget
      refine ⟨?_, ?_, AList.nodup_keys_remove _ _ hnd⟩
      · simp only [sumBalances] at *
        omega
      · by_cases hb0 : b = 0
        · simp only [hb0, if_pos, sumBalances, burnedTotal] at *
          omega
        · simp only [if_neg hb0, sumBalances, burnedTotal, List.map_append,
            List.sum_append, List.map_cons, List.map_nil, List.sum_cons,
            List.sum_nil] at *
          omega
    · exact absurd hok (by simp)

theorem storage_withdraw_preserves (supply : Nat) (t t' : FungibleToken)
    (c : AccountId) (amt : Option Nat) (got : Nat)
    (hok : storage_withdraw t c amt = .ok (t', got))
    (h : GInv supply t) : GInv supply t' := by
  obtain ⟨hsum, hburn, hnd⟩ := h
  simp only [storage_withdraw] at hok
  split at hok
  · exact absurd hok (by simp)
  · rename_i sb hget
    split at hok
    · injection hok with hok
      simp only [Prod.mk.injEq] at hok
      obtain ⟨h1, _⟩ := hok
      subst h1
      exact ⟨hsum, hburn, hnd⟩
    · exact absurd hok (by simp)

theorem step_preserves (supply : Nat) (t : FungibleToken) (op : Op)
    (h : GInv supply t) : GInv supply (step t op) := by
  cases op with
  | transfer s r a =>
    cases hft : ft_transfer t s r a with
    | error e => simpa only [step, hft] using h
    | ok t' =>
      obtain ⟨h1, h2, h3, h4⟩ := ft_transfer_ok_sum t t' s r a hft
      obtain ⟨hsum, hburn, hnd⟩ := h
      simp only [step, hft]
      exact ⟨by rw [h1, h2, hsum], by unfold burnedTotal; rw [h2, h3]; exact hburn,
        h4 hnd⟩
  | resolveTransfer s r a res =>
    simp only [step]
    exact ft_resolve_transfer_preserves supply t s r a res h
  | storageDeposit c acc att ro bc =>
    cases hsd : storage_deposit t c acc att ro bc with
    | error e => simpa only [step, hsd] using h
    | ok p =>
      obtain ⟨t', refund⟩ := p
      simp only [step, hsd]
      exact storage_deposit_preserves supply t t' c acc att ro bc refund hsd h
  | storageWithdraw c a =>
    cases hsw : storage_withdraw t c a with
    | error e => simpa only [step, hsw] using h
    | ok p =>
      obtain ⟨t', got⟩ := p
      simp only [step, hsw]
      exact storage_withdraw_preserves supply t t' c a got hsw h
  | storageUnregister c f =>
    cases hsu : storage_unregister t c f with
    | error e => simpa only [step, hsu] using h
    | ok p =>
      obtain ⟨t', refund, occurred⟩ := p
      simp only [step, hsu]
      exact storage_unregister_preserves supply t t' c f refund occurred hsu h

theorem run_preserves (supply : Nat) (ops : List Op) (t : FungibleToken)
    (h : GInv supply t) : GInv supply (run t ops) := by
  induction ops generalizing t with
  | nil => exact h
  | cons op rest ih =>
    simp only [run, List.foldl_cons] at *
    exact ih (step t op) (step_preserves supply t op h)

theorem contract_new_ginv (owner_id : AccountId) (supply : Nat)
    (metadata : FungibleTokenMetadata) (storage_usage : Nat) :
    GInv supply (Contract.new owner_id supply metadata storage_usage).token := by
  simp [GInv, Contract.new, internal_register_account, FungibleToken.new,
    balance_of, AList.get, AList.set, sumBalances, burnedTotal]

/-- C1: from initialization on, after every sequence of transfers,
transfer-and-call resolutions, and storage deposits, withdrawals and
unregistrations, the sum of all ledger balances equals the recorded total
supply (the ledger keys staying distinct, so this sum is the sum of
`balance_of` over all accounts), and the recorded total supply plus
everything logged as burned equals the initial supply: every burning
operation reduces the recorded total supply by exactly the burned amount,
preserving the equality. -/
theorem total_supply_invariant_holds (owner_id : AccountId) (supply : Nat)
    (metadata : FungibleTokenMetadata) (storage_usage : Nat) (ops : List Op) :
    sumBalances (run (Contract.new owner_id supply metadata storage_usage).token ops)
        = (run (Contract.new owner_id supply metadata storage_usage).token ops).total_supply
    ∧ (run (Contract.new owner_id supply metadata storage_usage).token ops).total_supply
        + burnedTotal (run (Contract.new owner_id supply metadata storage_usage).token ops)
        = supply
    ∧ (((run (Contract.new owner_id supply metadata storage_usage).token ops).accounts.map
        Prod.fst).Nodup) :=
  run_preserves supply ops _ (contract_new_ginv owner_id supply metadata storage_usage)

/-- C2: at the resolution of a transfer-and-call, a failed notification is
treated exactly as the receiver declining the full amount; the declared
unused amount is clamped to `[0, amount]`; the refund moved back is
further clamped to the receiver's current balance rather than failing, the
receiver losing exactly that refund and the sender recovering it; the
returned value is the net amount the receiver kept. -/
theorem ft_resolve_transfer_spec (t : FungibleToken) (s r : AccountId)
    (amount : Nat) (result : Option Nat) (hsr : s ≠ r) :
    ft_resolve_transfer t s r amount none
        = ft_resolve_transfer t s r amount (some amount)
    ∧ declaredUnused amount result ≤ amount
    ∧ refundOf t r amount result ≤ balance_of t r
    ∧ (ft_resolve_transfer t s r amount result).2
        = amount - refundOf t r amount result
    ∧ balance_of (ft_resolve_transfer t s r amount result).1 r
        = balance_of t r - refundOf t r amount result
    ∧ ((AList.get t.accounts s).isSome →
        balance_of (ft_resolve_transfer t s r amount result).1 s
          = balance_of t s + refundOf t r amount result) := by
  refine ⟨?_, ?_, ?_, ?_⟩
  · simp [ft_resolve_transfer, declaredUnused]
  · cases result with
    | none => exact le_refl _
    | some v => exact min_le_right _ _
  · exact min_le_left _ _
  · simp only [ft_resolve_transfer, refundOf]
    by_cases hz : min (balance_of t r) (declaredUnused amount result) = 0
    · rw [if_pos hz, hz]
      dsimp only
      exact ⟨by omega, by omega, fun _ => by omega⟩
    · rw [if_neg hz]
      have hrbpos : 0 < balance_of t r := by omega
      have hrget : AList.get t.accounts r = some (balance_of t r) := by
        cases hg : AList.get t.accounts r with
        | none =>
          exfalso
          have hb0 : balance_of t r = 0 := by unfold balance_of; rw [hg]; rfl
          omega
        | some b =>
          have hb : balance_of t r = b := by unfold balance_of; rw [hg]; rfl
          rw [hb]
      split
      · rename_i sb hs
        have hgs : AList.get t.accounts s = some sb := by
          rw [← AList.get_set_ne t.accounts r s
            (balance_of t r - min (balance_of t r) (declaredUnused amount result)) hsr]
          exact hs
        have hbs : balance_of t s = sb := by unfold balance_of; rw [hgs]; rfl
        refine ⟨rfl, ?_, ?_⟩
        · unfold balance_of
          dsimp only
          rw [AList.get_set_ne _ s r _ (fun h => hsr h.symm), AList.get_set_self]
          rfl
        · intro _
          unfold balance_of
          dsimp only
          rw [AList.get_set_self]
          simp [hgs]
      · rename_i hs
        have hgs : AList.get t.accounts s = none := by
          rw [← AList.get_set_ne t.accounts r s
            (balance_of t r - min (balance_of t r) (declaredUnused amount result)) hsr]
          exact hs
        refine ⟨rfl, ?_, ?_⟩
        · unfold balance_of
          dsimp only
          rw [AList.get_set_self]
          rfl
        · intro hsome
          rw [hgs] at hsome
          simp at hsome

/-- On a state whose balances sum below the u128 ceiling, a transfer whose
preconditions all hold succeeds and moves exactly the amount. -/
theorem ft_transfer_ok_detail (t : FungibleToken) (s r : AccountId) (a : Nat)
    (hsum : sumBalances t < u128Limit) (hsr : s ≠ r) (ha : a ≠ 0)
    (hr : (AList.get t.accounts r).isSome) (hb : a ≤ balance_of t s) :
    ∃ t', ft_transfer t s r a = .ok t'
      ∧ balance_of t' s = balance_of t s - a
      ∧ balance_of t' r = balance_of t r + a := by
  have hspos : 0 < balance_of t s := by omega
  have hgs : AList.get t.accounts s = some (balance_of t s) := by
    cases hg : AList.get t.accounts s with
    | none =>
      exfalso
      have h0 : balance_of t s = 0 := by unfold balance_of; rw [hg]; rfl
      omega
    | some b =>
      have hbb : balance_of t s = b := by unfold balance_of; rw [hg]; rfl
      rw [hbb]
  obtain ⟨rb, hgr⟩ : ∃ rb, AList.get t.accounts r = some rb := by
    cases hg : AList.get t.accounts r with
    | none => rw [hg] at hr; simp at hr
    | some b => exact ⟨b, rfl⟩
  have hw : internal_withdraw t s a
      = .ok { t with accounts := AList.set t.accounts s (balance_of t s - a) } := by
    unfold internal_withdraw
    rw [hgs]
    simp [hb]
  have hgr1 : AList.get (AList.set t.accounts s (balance_of t s - a)) r
      = some rb := by
    rw [AList.get_set_ne _ s r _ (fun h => hsr h.symm)]
    exact hgr
  have hsum1 := AList.sum_set t.accounts s (balance_of t s - a)
  rw [hgs] at hsum1
  simp only [Option.getD_some] at hsum1
  have hble := AList.get_le_sum t.accounts s (balance_of t s) hgs
  have hrble := AList.get_le_sum _ r rb hgr1
  have hlt : rb + a < u128Limit := by
    simp only [sumBalances] at *
    omega
  have hd : internal_deposit
        { t with accounts := AList.set t.accounts s (balance_of t s - a) } r a
      = .ok { t with accounts := AList.set (AList.set t.accounts s (balance_of t s - a)) r (rb + a) } := by
    unfold internal_deposit
    dsimp only
    rw [hgr1]
    simp [hlt]
  refine ⟨{ t with accounts := AList.set (AList.set t.accounts s (balance_of t s - a)) r (rb + a) }, ?_, ?_, ?_⟩
  · unfold ft_transfer
    rw [if_neg hsr, if_neg ha]
    have hrn : ¬((AList.get t.accounts r).isNone = true) := by
      rw [hgr]
      simp
    rw [if_neg hrn, hw]
    exact hd
  · unfold balance_of
    dsimp only
    rw [AList.get_set_ne _ r s _ hsr, AList.get_set_self]
    rfl
  · unfold balance_of
    dsimp only
    rw [AList.get_set_self, hgr]
    rfl

/-- C3: `ft_transfer` fails exactly when the sender equals the receiver,
the amount is zero, the receiver is not registered, or the sender's
balance is below the amount, with the respective errors
`SenderEqualsReceiver`, `ZeroAmount`, `ReceiverNotRegistered` and
`InsufficientBalance`; any failure rolls the state back unchanged; at the
boundary, transferring exactly the sender's balance succeeds and leaves
the sender at zero, while transferring one more fails with
`InsufficientBalance`. -/
theorem ft_transfer_failure_characterization (t : FungibleToken)
    (s r : AccountId) (a : Nat) (hsum : sumBalances t < u128Limit) :
    ((∃ e, ft_transfer t s r a = .error e) ↔
        (s = r ∨ a = 0 ∨ AList.get t.accounts r = none ∨ balance_of t s < a))
    ∧ (s = r → ft_transfer t s r a = .error .SenderEqualsReceiver)
    ∧ (s ≠ r → a = 0 → ft_transfer t s r a = .error .ZeroAmount)
    ∧ (s ≠ r → a ≠ 0 → AList.get t.accounts r = none →
        ft_transfer t s r a = .error .ReceiverNotRegistered)
    ∧ (s ≠ r → a ≠ 0 → (AList.get t.accounts r).isSome → balance_of t s < a →
        ft_transfer t s r a = .error .InsufficientBalance)
    ∧ (∀ e, ft_transfer t s r a = .error e → step t (.transfer s r a) = t)
    ∧ (s ≠ r → (AList.get t.accounts r).isSome → 0 < balance_of t s →
        ∃ t', ft_transfer t s r (balance_of t s) = .ok t'
          ∧ balance_of t' s = 0)
    ∧ (s ≠ r → (AList.get t.accounts r).isSome →
        ft_transfer t s r (balance_of t s + 1) = .error .InsufficientBalance) := by
  have herr2 : s = r → ft_transfer t s r a = .error .SenderEqualsReceiver := by
    intro h
    unfold ft_transfer
    rw [if_pos h]
  have herr3 : s ≠ r → a = 0 → ft_transfer t s r a = .error .ZeroAmount := by
    intro h h0
    unfold ft_transfer
    rw [if_neg h, if_pos h0]
  have herr4 : s ≠ r → a ≠ 0 → AList.get t.accounts r = none →
      ft_transfer t s r a = .error .ReceiverNotRegistered := by
    intro h h0 hn
    unfold ft_transfer
    rw [if_neg h, if_neg h0, if_pos (by rw [hn]; rfl)]
  have herr5 : ∀ b : Nat, s ≠ r → b ≠ 0 → (AList.get t.accounts r).isSome →
      balance_of t s < b →
      ft_transfer t s r b = .error .InsufficientBalance := by
    intro b h h0 hr hlt
    unfold ft_transfer
    rw [if_neg h, if_neg h0,
      if_neg (show ¬((AList.get t.accounts r).isNone = true) by
        cases hg : AList.get t.accounts r with
        | none => rw [hg] at hr; simp at hr
        | some x => simp)]
    unfold internal_withdraw
    cases hg : AList.get t.accounts s with
    | none => rfl
    | some bs =>
      have hbs : balance_of t s = bs := by unfold balance_of; rw [hg]; rfl
      dsimp only
      rw [if_neg (show ¬(b ≤ bs) by omega)]
  refine ⟨?_, herr2, herr3, herr4, herr5 a, ?_, ?_, ?_⟩
  · constructor
    · intro he
      by_contra hcon
      push_neg at hcon
      obtain ⟨h1, h2, h3, h4⟩ := hcon
      have hr : (AList.get t.accounts r).isSome := by
        cases hg : AList.get t.accounts r with
        | none => exact absurd hg h3
        | some x => rfl
      obtain ⟨t', hok, _, _⟩ := ft_transfer_ok_detail t s r a hsum h1 h2 hr (by omega)
      obtain ⟨e, he⟩ := he
      rw [hok] at he
      exact absurd he (by simp)
    · intro hd
      by_cases h1 : s = r
      · exact ⟨_, herr2 h1⟩
      by_cases h2 : a = 0
      · exact ⟨_, herr3 h1 h2⟩
      cases hg : AList.get t.accounts r with
      | none => exact ⟨_, herr4 h1 h2 hg⟩
      | some x =>
        have h4 : balance_of t s < a := by
          rcases hd with h | h | h | h
          · exact absurd h h1
          · exact absurd h h2
          · rw [h] at hg; exact absurd hg (by simp)
          · exact h
        exact ⟨_, herr5 a h1 h2 (by rw [hg]; rfl) h4⟩
  · intro e he
    simp [step, he]
  · intro h1 h2 h3
    obtain ⟨t', hok, hbs, _⟩ :=
      ft_transfer_ok_detail t s r (balance_of t s) hsum h1 (by omega) h2 (le_refl _)
    exact ⟨t', hok, by omega⟩
  · intro h1 h2
    exact herr5 (balance_of t s + 1) h1 (by omega) h2 (by omega)

/-- C4: depositing storage for an already-registered account returns the
full attached amount to the caller and changes no ledger or registry
state; a first-time registration attaching less than the minimum fails
with `InsufficientDeposit` and is rolled back atomically, the account
staying unregistered. -/
theorem storage_deposit_rejections (t : FungibleToken) (c acc : AccountId)
    (att : Nat) (ro : Bool) (bc : Nat) :
    ((AList.get t.accounts acc).isSome →
        storage_deposit t c (some acc) att ro bc = .ok (t, att))
    ∧ ((AList.get t.accounts acc).isNone →
        att < (storage_balance_bounds t bc).min →
        storage_deposit t c (some acc) att ro bc = .error .InsufficientDeposit)
    ∧ (∀ e, storage_deposit t c (some acc) att ro bc = .error e →
        step t (.storageDeposit c (some acc) att ro bc) = t) := by
  refine ⟨?_, ?_, ?_⟩
  · intro hreg
    simp only [storage_deposit, Option.getD_some]
    rw [if_pos hreg]
  · intro hreg hlt
    simp only [storage_deposit, Option.getD_some]
    rw [if_neg (by rw [Option.isNone_iff_eq_none] at hreg; rw [hreg]; simp),
      if_pos hlt]
  · intro e he
    simp [step, he]

/-- C5: a successful first-time storage deposit registers the account with
a zero ledger balance and records `floor = min`, `available = attached -
min` (with `registration_only`: the full attached amount as floor and zero
available); the caller is refunded exactly the attached amount not
recorded, here zero. -/
theorem storage_deposit_first_registration (t : FungibleToken)
    (c acc : AccountId) (att : Nat) (ro : Bool) (bc : Nat)
    (hreg : AList.get t.accounts acc = none)
    (hmin : (storage_balance_bounds t bc).min ≤ att) :
    ∃ t' sb, storage_deposit t c (some acc) att ro bc
        = .ok (t', att - (sb.floor + sb.available))
      ∧ AList.get t'.accounts acc = some 0
      ∧ AList.get t'.registry acc = some sb
      ∧ (ro = false → sb.floor = (storage_balance_bounds t bc).min
          ∧ sb.available = att - (storage_balance_bounds t bc).min)
      ∧ (ro = true → sb.floor = att ∧ sb.available = 0) := by
  have hregF : ¬((AList.get t.accounts acc).isSome = true) := by
    rw [hreg]
    simp
  cases ro with
  | false =>
    refine ⟨{ t with accounts := AList.set t.accounts acc 0, registry := AList.set t.registry acc ⟨(storage_balance_bounds t bc).min, att - (storage_balance_bounds t bc).min⟩ }, ⟨(storage_balance_bounds t bc).min, att - (storage_balance_bounds t bc).min⟩, ?_, ?_, ?_, ?_, ?_⟩
    · simp only [storage_deposit, Option.getD_some]
      rw [if_neg hregF, if_neg (by omega)]
      have h0 : att - ((storage_balance_bounds t bc).min
          + (att - (storage_balance_bounds t bc).min)) = 0 := by omega
      rw [h0]
      simp
    · exact AList.get_set_self t.accounts acc 0
    · exact AList.get_set_self t.registry acc _
    · intro _
      exact ⟨rfl, rfl⟩
    · intro h
      cases h
  | true =>
    refine ⟨{ t with accounts := AList.set t.accounts acc 0, registry := AList.set t.registry acc ⟨att, 0⟩ }, ⟨att, 0⟩, ?_, ?_, ?_, ?_, ?_⟩
    · simp only [storage_deposit, Option.getD_some]
      rw [if_neg hregF, if_neg (by omega)]
      have h0 : att - (att + 0) = 0 := by omega
      rw [h0]
      simp
    · exact AList.get_set_self t.accounts acc 0
    · exact AList.get_set_self t.registry acc _
    · intro h
      cases h
    · intro _
      exact ⟨rfl, rfl⟩

/-- C6: `storage_balance_bounds` returns the exact storage cost of one
ledger entry at the runtime's per-byte price as `min`, and an unbounded
`max`. -/
theorem storage_balance_bounds_min_max (t : FungibleToken) (bc : Nat) :
    (storage_balance_bounds t bc).min = ledger_entry_cost t bc
    ∧ (storage_balance_bounds t bc).max = none :=
  ⟨rfl, rfl⟩

/-- C7: forced unregistration of a registered account with nonzero balance
removes it from both the ledger and the registry, burns exactly that
balance (the recorded total supply drops by it and a burn record is
logged), and refunds the full storage deposit `floor + available`; without
`force` the call fails and changes nothing. -/
theorem storage_unregister_force_burn (t : FungibleToken) (c : AccountId)
    (b : Nat) (sb : StorageBalance)
    (hnd : (t.accounts.map Prod.fst).Nodup)
    (hndr : (t.registry.map Prod.fst).Nodup)
    (hsum : sumBalances t = t.total_supply)
    (hb : AList.get t.accounts c = some b) (hb0 : b ≠ 0)
    (hsb : AList.get t.registry c = some sb) :
    (∃ t', storage_unregister t c true = .ok (t', sb.floor + sb.available, true)
      ∧ AList.get t'.accounts c = none
      ∧ AList.get t'.registry c = none
      ∧ t'.total_supply + b = t.total_supply
      ∧ t'.burn_log = t.burn_log ++ [(c, b)])
    ∧ storage_unregister t c false = .error .NonZeroBalance := by
  have hble : b ≤ sumBalances t := AList.get_le_sum t.accounts c b hb
  constructor
  · refine ⟨{ t with accounts := AList.remove t.accounts c, registry := AList.remove t.registry c, total_supply := t.total_supply - b, burn_log := if b = 0 then t.burn_log else t.burn_log ++ [(c, b)] }, ?_, ?_, ?_, ?_, ?_⟩
    · unfold storage_unregister
      rw [hb]
      dsimp only
      rw [if_pos (Or.inr rfl), hsb]
    · exact AList.get_remove_self t.accounts c hnd
    · exact AList.get_remove_self t.registry c hndr
    · dsimp only
      omega
    · dsimp only
      rw [if_neg hb0]
  · unfold storage_unregister
    rw [hb]
    dsimp only
    rw [if_neg (by simp [hb0])]

/-- C8: `register` is idempotent: it creates a zero-balance ledger entry
when the account is absent, leaves the state entirely unchanged when the
account is already registered, and applying it twice equals applying it
once. -/
theorem internal_register_account_of_registered (t : FungibleToken)
    (a : AccountId) (hs : (AList.get t.accounts a).isSome) :
    internal_register_account t a = t := by
  unfold internal_register_account
  rw [if_pos hs]

theorem register_idempotent (t : FungibleToken) (a : AccountId) :
    ((AList.get t.accounts a).isNone →
        AList.get (internal_register_account t a).accounts a = some 0)
    ∧ ((AList.get t.accounts a).isSome → internal_register_account t a = t)
    ∧ internal_register_account (internal_register_account t a) a
        = internal_register_account t a := by
  refine ⟨?_, internal_register_account_of_registered t a, ?_⟩
  · intro hn
    unfold internal_register_account
    rw [if_neg (by rw [Option.isNone_iff_eq_none] at hn; rw [hn]; simp)]
    exact AList.get_set_self t.accounts a 0
  · by_cases hs : (AList.get t.accounts a).isSome
    · rw [internal_register_account_of_registered t a hs]
      exact internal_register_account_of_registered t a hs
    · have h2 : (AList.get (internal_register_account t a).accounts a).isSome := by
        unfold internal_register_account
        rw [if_neg hs]
        dsimp only
        rw [AList.get_set_self]
        rfl
      exact internal_register_account_of_registered _ a h2

/-- C9: `update_image` succeeds only for the fixed administrative account
`avtoken.near` and fails with an authorization error for every other
caller; on success it replaces only the icon field of the metadata,
leaving the token state and all other metadata fields unchanged. -/
theorem update_image_admin_only (c : Contract) (caller : AccountId)
    (image : String) :
    (∀ c', Contract.update_image c caller image = .ok c' →
        caller = "avtoken.near")
    ∧ (caller ≠ "avtoken.near" →
        Contract.update_image c caller image = .error .Unauthorized)
    ∧ (∀ m, caller = "avtoken.near" → c.metadata = some m →
        ∃ m', Contract.update_image c caller image
            = .ok { token := c.token, metadata := some m' }
          ∧ m'.icon = some image ∧ m'.spec = m.spec ∧ m'.name = m.name
          ∧ m'.symbol = m.symbol ∧ m'.decimals = m.decimals
          ∧ m'.reference = m.reference
          ∧ m'.reference_hash = m.reference_hash) := by
  refine ⟨?_, ?_, ?_⟩
  · intro c' hok
    by_cases hc : caller = "avtoken.near"
    · exact hc
    · unfold Contract.update_image at hok
      rw [if_neg hc] at hok
      exact absurd hok (by simp)
  · intro hc
    unfold Contract.update_image
    rw [if_neg hc]
  · intro m hc hm
    refine ⟨{ m with icon := some image }, ?_, rfl, rfl, rfl, rfl, rfl, rfl, rfl⟩
    unfold Contract.update_image
    rw [if_pos hc, hm]

/-- Witness for C2 at scenario B: resolving a transfer of 300 with 50
declared unused leaves the receiver at 250, the sender back at 750, and
returns 250. -/
theorem ft_resolve_transfer_spec_witness :
    ("x" : AccountId) ≠ "r"
    ∧ (ft_resolve_transfer scenarioBState "x" "r" 300 (some 50)).2 = 250
    ∧ balance_of (ft_resolve_transfer scenarioBState "x" "r" 300 (some 50)).1 "r" = 250
    ∧ balance_of (ft_resolve_transfer scenarioBState "x" "r" 300 (some 50)).1 "x" = 750 := by
  obtain ⟨-, -, -, h4, h5, h6⟩ :=
    ft_resolve_transfer_spec scenarioBState "x" "r" 300 (some 50) (by decide)
  refine ⟨by decide, ?_, ?_, ?_⟩
  · rw [h4]
    decide
  · rw [h5]
    decide
  · rw [h6 (by decide)]
    decide

/-- Witness for C3 on a concrete two-account state: each failure mode
produces its error, and the boundary transfer of the whole balance
succeeds leaving the sender at zero. -/
theorem ft_transfer_failure_characterization_witness :
    sumBalances sampleToken < u128Limit
    ∧ ft_transfer sampleToken "alice" "alice" 3 = .error .SenderEqualsReceiver
    ∧ ft_transfer sampleToken "alice" "bob" 0 = .error .ZeroAmount
    ∧ ft_transfer sampleToken "alice" "carol" 3 = .error .ReceiverNotRegistered
    ∧ ft_transfer sampleToken "alice" "bob" 6 = .error .InsufficientBalance
    ∧ (∃ t', ft_transfer sampleToken "alice" "bob" (balance_of sampleToken "alice")
        = .ok t' ∧ balance_of t' "alice" = 0) := by
  have haa := ft_transfer_failure_characterization sampleToken "alice" "alice" 3 (by decide)
  have hab := ft_transfer_failure_characterization sampleToken "alice" "bob" 0 (by decide)
  have hac := ft_transfer_failure_characterization sampleToken "alice" "carol" 3 (by decide)
  have hab6 := ft_transfer_failure_characterization sampleToken "alice" "bob" 6 (by decide)
  exact ⟨by decide, haa.2.1 rfl, hab.2.2.1 (by decide) rfl,
    hac.2.2.2.1 (by decide) (by decide) (by decide),
    hab6.2.2.2.2.1 (by decide) (by decide) (by decide) (by decide),
    hab.2.2.2.2.2.2.1 (by decide) (by decide) (by decide)⟩

/-- Witness for C4: a deposit for the registered `alice` returns the full
attachment with no state change, and a 3-unit attachment for the
unregistered `carol` (minimum 4) is rejected with `InsufficientDeposit`. -/
theorem storage_deposit_rejections_witness :
    storage_deposit sampleToken "alice" (some "alice") 9 false 1 = .ok (sampleToken, 9)
    ∧ storage_deposit sampleToken "carol" (some "carol") 3 false 1
        = .error .InsufficientDeposit :=
  ⟨(storage_deposit_rejections sampleToken "alice" "alice" 9 false 1).1 (by decide),
    (storage_deposit_rejections sampleToken "carol" "carol" 3 false 1).2.1
      (by decide) (by decide)⟩

/-- Witness for C5: a first-time deposit of 10 for `carol` (minimum 4)
registers her at balance zero with floor 4 and available 6. -/
theorem storage_deposit_first_registration_witness :
    ∃ t' sb, storage_deposit sampleToken "carol" (some "carol") 10 false 1
        = .ok (t', 10 - (sb.floor + sb.available))
      ∧ AList.get t'.accounts "carol" = some 0
      ∧ AList.get t'.registry "carol" = some sb
      ∧ (false = false → sb.floor = (storage_balance_bounds sampleToken 1).min
          ∧ sb.available = 10 - (storage_balance_bounds sampleToken 1).min)
      ∧ (false = true → sb.floor = 10 ∧ sb.available = 0) :=
  storage_deposit_first_registration sampleToken "carol" "carol" 10 false 1
    (by decide) (by decide)

/-- Witness for C7: forcibly unregistering `bob`, who holds 2 tokens and a
storage deposit of 3 + 0, removes him everywhere, burns and logs the 2,
and refunds 3 + 0; without force the call fails. -/
theorem storage_unregister_force_burn_witness :
    (∃ t', storage_unregister sampleToken "bob" true
        = .ok (t', (⟨3, 0⟩ : StorageBalance).floor + (⟨3, 0⟩ : StorageBalance).available, true)
      ∧ AList.get t'.accounts "bob" = none
      ∧ AList.get t'.registry "bob" = none
      ∧ t'.total_supply + 2 = sampleToken.total_supply
      ∧ t'.burn_log = sampleToken.burn_log ++ [("bob", 2)])
    ∧ storage_unregister sampleToken "bob" false = .error .NonZeroBalance :=
  storage_unregister_force_burn sampleToken "bob" 2 ⟨3, 0⟩ (by decide) (by decide)
    (by decide) (by decide) (by decide) (by decide)

/-- Witness for C8: registering the absent `carol` creates a zero entry,
registering the present `alice` changes nothing, and registering twice
equals registering once. -/
theorem register_idempotent_witness :
    AList.get (internal_register_account sampleToken "carol").accounts "carol" = some 0
    ∧ internal_register_account sampleToken "alice" = sampleToken
    ∧ internal_register_account (internal_register_account sampleToken "carol") "carol"
        = internal_register_account sampleToken "carol" :=
  ⟨(register_idempotent sampleToken "carol").1 (by decide),
    (register_idempotent sampleToken "alice").2.1 (by decide),
    (register_idempotent sampleToken "carol").2.2⟩

/-- Witness for C9: a non-admin caller is rejected with `Unauthorized`,
and the admin caller replaces exactly the icon field. -/
theorem update_image_admin_only_witness :
    Contract.update_image sampleContract "mallory" "icon2" = .error .Unauthorized
    ∧ (∃ m', Contract.update_image sampleContract "avtoken.near" "icon2"
        = .ok { token := sampleContract.token, metadata := some m' }
      ∧ m'.icon = some "icon2" ∧ m'.spec = sampleMetadata.spec
      ∧ m'.name = sampleMetadata.name ∧ m'.symbol = sampleMetadata.symbol
      ∧ m'.decimals = sampleMetadata.decimals
      ∧ m'.reference = sampleMetadata.reference
      ∧ m'.reference_hash = sampleMetadata.reference_hash) :=
  ⟨(update_image_admin_only sampleContract "mallory" "icon2").2.1 (by decide),
    (update_image_admin_only sampleContract "avtoken.near" "icon2").2.2
      sampleMetadata rfl rfl⟩
